import Mathlib

/-!
Verification of the tiered trust-analysis pipeline of `verify-your-cart`.

Shallow embedding of:
- `src/services/mockAnalysisService.ts` (deterministic estimator),
- `src/services/analysisService.ts` (defensive resolver, "v1"),
- `src/unnamed/part_000` (near-duplicate resolver, "v2").

JavaScript strings are modelled as Lean `String` / `List Char` (the strings
appearing in this development are ASCII, where JS `toLowerCase`, `trim` and
regex `\s` agree with the ASCII models used below).  JSON values are modelled
by the inductive `Json` with numbers as rationals (`JSON.parse` produces exact
decimal values and the pipeline performs no arithmetic on them).  Thrown JS
exceptions are modelled by `Except Unit` / `Option`; the `timestamp` field
(wall-clock) and the artificial mock delay are outside the embedding, and all
claims are stated up to timestamp.
-/

set_option maxRecDepth 10000

/-- The three-way verdict enum (`AnalysisResult['verdict']` in `src/types`). -/
inductive Verdict where
  | Genuine
  | Suspicious
  | Fake
deriving DecidableEq

/-- JSON values as produced by `JSON.parse`.  Object fields keep source order;
lookups take the last binding with a given key, matching JS object-literal
semantics for duplicate keys. -/
inductive Json where
  | null
  | bool (b : Bool)
  | num (q : ℚ)
  | str (s : String)
  | arr (elems : List Json)
  | obj (fields : List (String × Json))

/-- The canonical result record (`AnalysisResult`).  The five breakdown slots
are flattened into fields; dynamic (duck-typed) fields keep type `Json`
because the source copies provider values through without type enforcement.
`timestamp` is omitted (wall-clock, outside the embedding). -/
structure AnalysisResult where
  trust_score : Json
  verdict : Verdict
  reasons : Json
  advice : Json
  url : String
  sources : List String
  reviews : Json
  sentiment : Json
  price : Json
  seller : Json
  description : Json

/-! ### Character/string helpers (ASCII models of the JS string operations) -/

/-- The characters `\x7b` and `\x7d` (left/right curly brace). -/
def lbrace : Char := Char.ofNat 123

def rbrace : Char := Char.ofNat 125

/-- ASCII model of JS `String.prototype.toLowerCase`. -/
def lowerStr (s : String) : String := String.mk (s.toList.map Char.toLower)

/-- Substring containment on char lists: JS `String.prototype.includes`. -/
def containsCL (pat : List Char) : List Char → Bool
  | [] => pat.isEmpty
  | c :: cs => pat.isPrefixOf (c :: cs) || containsCL pat cs

/-- JS `s.includes(pat)`. -/
def containsStr (s pat : String) : Bool := containsCL pat.toList s.toList

/-- ASCII whitespace recognized by JS `trim` / regex `\s` (on the ASCII range). -/
def isSpaceJS (c : Char) : Bool :=
  c == ' ' || c == '\t' || c == '\n' || c == '\r' || c == Char.ofNat 11 || c == Char.ofNat 12

/-- JS `String.prototype.trim` on char lists. -/
def trimChars (l : List Char) : List Char :=
  ((l.dropWhile isSpaceJS).reverse.dropWhile isSpaceJS).reverse

/-- JS `String.prototype.trim`. -/
def trimStr (s : String) : String := String.mk (trimChars s.toList)

/-- Index of the first occurrence of the pattern `pat` (as a contiguous run),
JS `String.prototype.indexOf` for a literal pattern. -/
def idxOfPat (pat : List Char) : List Char → Option Nat
  | [] => if pat.isEmpty then some 0 else none
  | c :: cs =>
    if pat.isPrefixOf (c :: cs) then some 0
    else (idxOfPat pat cs).map (· + 1)

/-- JS `indexOf` for a single character. -/
def idxOfChar (c : Char) (l : List Char) : Option Nat := idxOfPat [c] l

/-- JS `lastIndexOf` for a single character. -/
def lastIdxOfChar (c : Char) (l : List Char) : Option Nat :=
  (idxOfPat [c] l.reverse).map (fun j => l.length - 1 - j)

/-- JS `String.prototype.substring l a b`: clamps and swaps its endpoints. -/
def substringJS (l : List Char) (a b : Nat) : List Char :=
  (l.drop (min a b)).take (max a b - min a b)

/-! ### Estimator (`src/services/mockAnalysisService.ts`) -/

/-- The trusted-retailer whitelist (`trustedDomains`). -/
def trustedDomains : List String :=
  ["amazon", "flipkart", "myntra", "apple", "nike", "adidas",
   "samsung", "bestbuy", "walmart", "target", "ebay", "meesho",
   "ajio", "tatacliq", "jiomart", "zara", "h&m", "uniqlo"]

/-- The scam-signal keyword list (`scamKeywords`). -/
def scamKeywords : List String :=
  ["free", "giveaway", "winner", "70-off", "80-off", "90-off",
   "lucky-draw", "wheel-spin", "claim-now", "urgent", "limited-time"]

/-- `mockAnalyzeProduct` from `src/services/mockAnalysisService.ts` (minus the
artificial delay and the timestamp). -/
def mockAnalyzeProduct (url : String) : AnalysisResult :=
  let urlLower := lowerStr url
  let isTrusted := trustedDomains.any (fun d => containsStr urlLower d)
  let isScam := scamKeywords.any (fun k => containsStr urlLower k)
  { trust_score := Json.num (if isTrusted then 92 else if isScam then 25 else 65)
    verdict := if isTrusted then Verdict.Genuine
               else if isScam then Verdict.Fake
               else Verdict.Suspicious
    reasons := Json.arr
      [ Json.str (if isTrusted then "Domain matches a known major retailer"
                  else "Domain trust level is low or unknown"),
        Json.str (if isScam then "Suspicious promotional keywords detected"
                  else "Pricing analysis inconclusive"),
        Json.str "Seller reputation scan completed" ]
    advice := Json.str
      (if isTrusted then
        "This appears to be a verified listing from a trusted major retailer. Safe to proceed."
       else if isScam then
        "High Risk! This URL contains keywords commonly associated with phishing or scam campaigns."
       else "We couldn't fully verify this site. Proceed with caution.")
    url := url
    sources := []
    reviews := Json.arr [Json.str "Unable to fetch live reviews (Mock Mode)."]
    sentiment := Json.arr [Json.str "Sentiment analysis unavailable (Mock Mode)."]
    price := Json.arr [Json.str "Price comparison unavailable (Mock Mode)."]
    seller := Json.arr [Json.str "Seller verification skipped."]
    description := Json.arr [Json.str "URL structure analyzed."] }

/-! ### Verdict classifier and result formatting (the `formatResult` closures) -/

/-- JS truthiness on defined JSON values (`undefined` is handled at the
`Option` level by `jsOr`). -/
def jsTruthy : Json → Bool
  | Json.null => false
  | Json.bool b => b
  | Json.num q => q != 0
  | Json.str s => s != ""
  | Json.arr _ => true
  | Json.obj _ => true

/-- JS `x || dflt` where `x` may be `undefined` (`none`). -/
def jsOr (v : Option Json) (dflt : Json) : Json :=
  match v with
  | some x => if jsTruthy x then x else dflt
  | none => dflt

/-- Field lookup on a parsed JS object: last binding wins (JS object-literal
semantics for duplicate keys in `JSON.parse`). -/
def lookupField : List (String × Json) → String → Option Json
  | [], _ => none
  | (k', v) :: rest, k =>
    match lookupField rest k with
    | some w => some w
    | none => if k' = k then some v else none

/-- JS property access `j.k` on a non-null value (`undefined` = `none`);
also models the optional chain `j?.k` for non-null, non-undefined `j`. -/
def fieldOf : Json → String → Option Json
  | Json.obj fs, k => lookupField fs k
  | _, _ => none

/-- The verdict-mapping step of `formatResult`
(`analysisService.ts` lines 97-100 / `part_000` lines 112-115):
lower-case the raw label, check the genuine/safe group first, then the
fake/scam group, default `Suspicious`. -/
def classifyVerdict (s : String) : Verdict :=
  let v := lowerStr s
  if containsStr v "genuine" || containsStr v "safe" then Verdict.Genuine
  else if containsStr v "fake" || containsStr v "scam" then Verdict.Fake
  else Verdict.Suspicious

/-- `formatResult`, parameterized by the two default strings in which the two
resolver copies differ.  Returns `none` where the JS code throws a
`TypeError`: on the JSON `null` record (property access on null) and on a
truthy non-string `verdict` field (`toLowerCase` on a non-string). -/
def formatResultWith (dReasons dAdvice : String) (result : Json) (url : String)
    (sources : List String) : Option AnalysisResult :=
  match result with
  | Json.null => none
  | _ =>
    match jsOr (fieldOf result "verdict") (Json.str "") with
    | Json.str s =>
      let bd := fieldOf result "breakdown"
      let slot := fun (name : String) =>
        jsOr (match bd with
              | some b => fieldOf b name
              | none => none)
          (Json.arr [Json.str "Data unavailable"])
      some
        { trust_score := jsOr (fieldOf result "trust_score") (Json.num 0)
          verdict := classifyVerdict s
          reasons := jsOr (fieldOf result "reasons") (Json.arr [Json.str dReasons])
          advice := jsOr (fieldOf result "advice") (Json.str dAdvice)
          url := url
          sources := sources.take 4
          reviews := slot "reviews"
          sentiment := slot "sentiment"
          price := slot "price"
          seller := slot "seller"
          description := slot "description" }
    | _ => none

/-- `formatResult` of `src/services/analysisService.ts` (lines 96-118). -/
def formatResult_v1 : Json → String → List String → Option AnalysisResult :=
  formatResultWith "Analysis based on domain patterns." "Proceed with caution."

/-- `formatResult` of `src/unnamed/part_000` (lines 111-133). -/
def formatResult_v2 : Json → String → List String → Option AnalysisResult :=
  formatResultWith "Analysis based on domain reputation." "Verify independently."

/-! ### A model of `JSON.parse`

Recursive-descent parser for the JSON grammar: ws, `null`, booleans, numbers
(with optional sign, fraction, exponent; JSON's no-leading-zero rule),
strings (with the JSON escapes; `\uXXXX` restricted to non-surrogate code
points, the only ones a Lean `Char` can carry), arrays and objects.  A fuel
parameter makes the mutual recursion structural; the fuel supplied by
`jsonParse` (three times the input length) dominates the call depth, which
consumes at least one character per three nested calls. -/

/-- JSON insignificant whitespace. -/
def isJsonWs (c : Char) : Bool :=
  c == ' ' || c == '\t' || c == '\n' || c == '\r'

/-- Skip JSON whitespace. -/
def skipJsonWs (l : List Char) : List Char := l.dropWhile isJsonWs

/-- Value of a hex digit. -/
def hexVal (c : Char) : Option Nat :=
  if c.isDigit then some (c.toNat - 48)
  else if 'a' ≤ c ∧ c ≤ 'f' then some (c.toNat - 87)
  else if 'A' ≤ c ∧ c ≤ 'F' then some (c.toNat - 55)
  else none

/-- Single-character JSON string escapes. -/
def escChar (e : Char) : Option Char :=
  if e = '"' then some '"'
  else if e = '\\' then some '\\'
  else if e = '/' then some '/'
  else if e = 'n' then some '\n'
  else if e = 't' then some '\t'
  else if e = 'r' then some '\r'
  else if e = 'b' then some (Char.ofNat 8)
  else if e = 'f' then some (Char.ofNat 12)
  else none

/-- Body of a JSON string after the opening quote: returns the decoded
content and the remainder after the closing quote. -/
def parseStrBody : List Char → Option (List Char × List Char)
  | [] => none
  | c :: cs =>
    if c = '"' then some ([], cs)
    else if c = '\\' then
      match cs with
      | [] => none
      | e :: cs2 =>
        if e = 'u' then
          match cs2 with
          | h1 :: h2 :: h3 :: h4 :: cs3 =>
            match hexVal h1, hexVal h2, hexVal h3, hexVal h4 with
            | some a, some b, some c3, some d =>
              let n := ((a * 16 + b) * 16 + c3) * 16 + d
              if 0xD800 ≤ n ∧ n ≤ 0xDFFF then none
              else
                match parseStrBody cs3 with
                | some (s, r) => some (Char.ofNat n :: s, r)
                | none => none
            | _, _, _, _ => none
          | _ => none
        else
          match escChar e with
          | some ch =>
            match parseStrBody cs2 with
            | some (s, r) => some (ch :: s, r)
            | none => none
          | none => none
    else if c.toNat < 32 then none
    else
      match parseStrBody cs with
      | some (s, r) => some (c :: s, r)
      | none => none

/-- Decimal digits to a natural number. -/
def digitsToNat (ds : List Char) : Nat :=
  ds.foldl (fun n c => n * 10 + (c.toNat - 48)) 0

/-- A JSON number at the head of the input: `-?int frac? exp?`. -/
def parseNumber (l : List Char) : Option (ℚ × List Char) :=
  let signAndRest : Bool × List Char :=
    match l with
    | c :: cs => if c = '-' then (true, cs) else (false, l)
    | [] => (false, l)
  let neg := signAndRest.1
  let l1 := signAndRest.2
  match l1 with
  | [] => none
  | c0 :: _ =>
    if c0.isDigit then
      let ds := l1.takeWhile Char.isDigit
      let l2 := l1.dropWhile Char.isDigit
      if 1 < ds.length ∧ ds.head? = some '0' then none
      else
        let ip : Nat := digitsToNat ds
        let fracRes : Option (List Char × List Char) :=
          match l2 with
          | c2 :: cs2 =>
            if c2 = '.' then
              let fds := cs2.takeWhile Char.isDigit
              if fds.isEmpty then none else some (fds, cs2.dropWhile Char.isDigit)
            else some ([], l2)
          | [] => some ([], l2)
        match fracRes with
        | none => none
        | some (fds, l3) =>
          let expRes : Option (Int × List Char) :=
            match l3 with
            | e :: cs3 =>
              if e = 'e' ∨ e = 'E' then
                let signRest : Int × List Char :=
                  match cs3 with
                  | s :: cs4 =>
                    if s = '+' then (1, cs4)
                    else if s = '-' then (-1, cs4)
                    else (1, cs3)
                  | [] => (1, cs3)
                let eds := signRest.2.takeWhile Char.isDigit
                if eds.isEmpty then none
                else some (signRest.1 * Int.ofNat (digitsToNat eds),
                           signRest.2.dropWhile Char.isDigit)
              else some (0, l3)
            | [] => some (0, l3)
          match expRes with
          | none => none
          | some (ex, l4) =>
            let base : ℚ :=
              if fds.isEmpty ∧ ex = 0 then (ip : ℚ)
              else ((ip : ℚ) + (digitsToNat fds : ℚ) / ((10 : ℚ) ^ fds.length))
                     * (10 : ℚ) ^ ex
            some ((if neg then -base else base), l4)
    else none

mutual

/-- A JSON value at the head of the input (after skipping whitespace). -/
def parseVal : Nat → List Char → Option (Json × List Char)
  | 0, _ => none
  | fuel + 1, l =>
    match skipJsonWs l with
    | [] => none
    | c :: cs =>
      if c = 'n' then
        if ['u', 'l', 'l'].isPrefixOf cs then some (Json.null, cs.drop 3) else none
      else if c = 't' then
        if ['r', 'u', 'e'].isPrefixOf cs then some (Json.bool true, cs.drop 3) else none
      else if c = 'f' then
        if ['a', 'l', 's', 'e'].isPrefixOf cs then some (Json.bool false, cs.drop 4) else none
      else if c = '"' then
        match parseStrBody cs with
        | some (content, rest) => some (Json.str (String.mk content), rest)
        | none => none
      else if c = '[' then
        match parseArrTail fuel cs with
        | some (elems, rest) => some (Json.arr elems, rest)
        | none => none
      else if c = lbrace then
        match parseObjTail fuel cs with
        | some (fields, rest) => some (Json.obj fields, rest)
        | none => none
      else
        match parseNumber (c :: cs) with
        | some (q, rest) => some (Json.num q, rest)
        | none => none

/-- Array body after the opening bracket. -/
def parseArrTail : Nat → List Char → Option (List Json × List Char)
  | 0, _ => none
  | fuel + 1, l =>
    match skipJsonWs l with
    | [] => none
    | c :: cs =>
      if c = ']' then some ([], cs)
      else parseArrItems fuel (c :: cs)

/-- One-or-more comma-separated array elements, up to the closing bracket. -/
def parseArrItems : Nat → List Char → Option (List Json × List Char)
  | 0, _ => none
  | fuel + 1, l =>
    match parseVal fuel l with
    | none => none
    | some (j, rest) =>
      match skipJsonWs rest with
      | [] => none
      | c :: cs =>
        if c = ',' then
          match parseArrItems fuel cs with
          | some (js, rr) => some (j :: js, rr)
          | none => none
        else if c = ']' then some ([j], cs)
        else none

/-- Object body after the opening brace. -/
def parseObjTail : Nat → List Char → Option (List (String × Json) × List Char)
  | 0, _ => none
  | fuel + 1, l =>
    match skipJsonWs l with
    | [] => none
    | c :: cs =>
      if c = rbrace then some ([], cs)
      else parseObjItems fuel (c :: cs)

/-- One-or-more comma-separated `key: value` pairs, up to the closing brace. -/
def parseObjItems : Nat → List Char → Option (List (String × Json) × List Char)
  | 0, _ => none
  | fuel + 1, l =>
    match skipJsonWs l with
    | [] => none
    | c :: cs =>
      if c = '"' then
        match parseStrBody cs with
        | none => none
        | some (key, rest) =>
          match skipJsonWs rest with
          | [] => none
          | c2 :: cs2 =>
            if c2 = ':' then
              match parseVal fuel cs2 with
              | none => none
              | some (v, rest2) =>
                match skipJsonWs rest2 with
                | [] => none
                | c3 :: cs3 =>
                  if c3 = ',' then
                    match parseObjItems fuel cs3 with
                    | some (fs, rr) => some ((String.mk key, v) :: fs, rr)
                    | none => none
                  else if c3 = rbrace then some ([(String.mk key, v)], cs3)
                  else none
            else none
      else none

end

/-- `JSON.parse` on a character list: parse one value, then require only
trailing whitespace. -/
def jsonParse (l : List Char) : Option Json :=
  match parseVal (3 * l.length + 3) l with
  | some (j, rest) => if skipJsonWs rest = [] then some j else none
  | none => none

/-- `JSON.parse` on a string. -/
def jsonParseStr (s : String) : Option Json := jsonParse s.toList

/-! ### The two `parseResponse` helpers -/

/-- The literal `` ```json `` as a character list. -/
def fenceJsonPat : List Char := "```json".toList

/-- The literal `` ``` `` as a character list. -/
def fencePat : List Char := "```".toList

/-- The backtick character (code 96). -/
def backtick : Char := Char.ofNat 96

/-- The v1 fence stripping, `rawText.replace(/```json|```/g, '')`: scan left
to right; at each position try the alternative `` ```json `` first, then
`` ``` ``; on a match drop it, otherwise keep the character. -/
def stripFences : List Char → List Char
  | [] => []
  | c :: cs =>
    if fenceJsonPat.isPrefixOf (c :: cs) then stripFences (cs.drop 6)
    else if fencePat.isPrefixOf (c :: cs) then stripFences (cs.drop 2)
    else c :: stripFences cs
termination_by l => l.length
decreasing_by
  · simp only [List.length_drop, List.length_cons]; omega
  · simp only [List.length_drop, List.length_cons]; omega
  · simp only [List.length_cons]; omega

/-- "Locate JSON object if mixed with text": `indexOf('{')` /
`lastIndexOf('}')`, slice when both are found (JS `substring` swaps a start
greater than its end). -/
def sliceBraces (l : List Char) : List Char :=
  match idxOfChar lbrace l, lastIdxOfChar rbrace l with
  | some s, some e => substringJS l s (e + 1)
  | _, _ => l

/-- The cleaning pipeline of v1's `parseResponse`
(`analysisService.ts` lines 84-94): strip fence markers, trim. -/
def cleanedText_v1 (raw : String) : List Char := trimChars (stripFences raw.toList)

/-- `parseResponse` of `src/services/analysisService.ts` (lines 84-94).
`Except.error` models a thrown exception (either the explicit
"Empty response from AI" throw or a `JSON.parse` `SyntaxError`). -/
def parseResponse_v1 (rawText : Option String) : Except Unit Json :=
  match rawText with
  | none => Except.error ()
  | some raw =>
    if raw = "" then Except.error ()
    else
      match jsonParse (sliceBraces (cleanedText_v1 raw)) with
      | some j => Except.ok j
      | none => Except.error ()

/-- The v2 fenced-block extraction,
`cleanText.match(/```json\s*([\s\S]*?)\s*```/)` (and its generic-fence
analogue): the match starts at the first occurrence of the opening marker
that is followed by a closing `` ``` ``; the lazy middle group together with
the greedy/lazy `\s*` borders captures the text in between with surrounding
whitespace stripped.  (If the first opening-marker occurrence has no closing
marker after it, no later one has either, so no retry is needed.) -/
def fenceExtract (openPat : List Char) (l : List Char) : Option (List Char) :=
  match idxOfPat openPat l with
  | none => none
  | some i =>
    let rest := l.drop (i + openPat.length)
    (idxOfPat fencePat rest).map (fun j => trimChars (rest.take j))

/-- The cleaning pipeline of v2's `parseResponse` (`part_000` lines 86-106):
extract a `` ```json `` block, else a generic fenced block, else keep the raw
text (note: no `trim` in v2). -/
def cleanedText_v2 (raw : String) : List Char :=
  match fenceExtract fenceJsonPat raw.toList with
  | some m => m
  | none =>
    match fenceExtract fencePat raw.toList with
    | some m => m
    | none => raw.toList

/-- `parseResponse` of `src/unnamed/part_000` (lines 86-106). -/
def parseResponse_v2 (rawText : Option String) : Except Unit Json :=
  match rawText with
  | none => Except.error ()
  | some raw =>
    if raw = "" then Except.error ()
    else
      match jsonParse (sliceBraces (cleanedText_v2 raw)) with
      | some j => Except.ok j
      | none => Except.error ()

/-! ### The tiered resolvers -/

/-- What a provider call yields when it does not throw: the response `text`
(possibly `undefined`) and the grounding-chunk URIs
(`candidates?.[0]?.groundingMetadata?.groundingChunks` modelled directly by
the `web?.uri` values of its chunks; `none` when any link of the optional
chain is absent). -/
structure ProviderResponse where
  text : Option String
  grounding : Option (List (Option String))

/-- `...groundingChunks?.map(c => c.web?.uri).filter(Boolean) || []`:
drop absent and empty URIs; an absent chain yields `[]`. -/
def extractSources (g : Option (List (Option String))) : List String :=
  match g with
  | none => []
  | some us => (us.filterMap id).filter (fun s => s != "")

/-- The ambient environment of one `analyzeProduct` invocation: the outcome
of reading `process.env.API_KEY` (which may itself throw), of the
`new GoogleGenAI(...)` constructor, and of the two provider calls.
Each tier outcome is `Except.error` for any thrown failure (transport error,
provider rejection) and `Except.ok` for a delivered response. -/
structure Env where
  envAccess : Except Unit (Option String)
  clientOk : Bool
  tier1 : Except Unit ProviderResponse
  tier2 : Except Unit ProviderResponse

/-- `let apiKey = ""; try { apiKey = process.env.API_KEY || ""; } catch ...`
(identical in both resolver variants). -/
def computedApiKey (env : Env) : String :=
  match env.envAccess with
  | Except.ok k => k.getD ""
  | Except.error _ => ""

/-- One live-tier attempt as v1 runs it: provider call, `parseResponse`,
source extraction, `formatResult`; any throw makes the tier fail. -/
def tierAttempt_v1 (t : Except Unit ProviderResponse) (url : String) :
    Except Unit AnalysisResult :=
  match t with
  | Except.error _ => Except.error ()
  | Except.ok resp =>
    match parseResponse_v1 resp.text with
    | Except.error _ => Except.error ()
    | Except.ok j =>
      match formatResult_v1 j url (extractSources resp.grounding) with
      | none => Except.error ()
      | some r => Except.ok r

/-- One live-tier attempt as v2 runs it (v2's `parseResponse` and defaults). -/
def tierAttempt_v2 (t : Except Unit ProviderResponse) (url : String) :
    Except Unit AnalysisResult :=
  match t with
  | Except.error _ => Except.error ()
  | Except.ok resp =>
    match parseResponse_v2 resp.text with
    | Except.error _ => Except.error ()
    | Except.ok j =>
      match formatResult_v2 j url (extractSources resp.grounding) with
      | none => Except.error ()
      | some r => Except.ok r

/-- The body of v1's outer `try` (`analysisService.ts` lines 15-162):
key validation (with `trim()` in the blank-key check), client construction
(throw propagates to the master catch), tier 1, on failure tier 2, whose
failure is re-thrown. -/
def analyzeBody_v1 (env : Env) (url : String) : Except Unit AnalysisResult :=
  let apiKey := computedApiKey env
  if apiKey = "" ∨ apiKey = "PLACEHOLDER_API_KEY" ∨ trimStr apiKey = "" then
    Except.ok (mockAnalyzeProduct url)
  else if env.clientOk = false then Except.error ()
  else
    match tierAttempt_v1 env.tier1 url with
    | Except.ok r => Except.ok r
    | Except.error _ =>
      match tierAttempt_v1 env.tier2 url with
      | Except.ok r => Except.ok r
      | Except.error e => Except.error e

/-- `analyzeProduct` of `src/services/analysisService.ts` (lines 13-169):
the body wrapped in the master catch, which falls back to the mock engine. -/
def analyzeProduct_v1 (env : Env) (url : String) : Except Unit AnalysisResult :=
  match analyzeBody_v1 env url with
  | Except.ok r => Except.ok r
  | Except.error _ => Except.ok (mockAnalyzeProduct url)

/-- `analyzeProduct` of `src/unnamed/part_000` (lines 11-173): the key check
has no `trim()`, the client constructor sits outside every `try` (its throw
rejects the promise), and the `try` block wraps only the two tier attempts. -/
def analyzeProduct_v2 (env : Env) (url : String) : Except Unit AnalysisResult :=
  let apiKey := computedApiKey env
  if apiKey = "" ∨ apiKey = "PLACEHOLDER_API_KEY" then
    Except.ok (mockAnalyzeProduct url)
  else if env.clientOk = false then Except.error ()
  else
    match (match tierAttempt_v2 env.tier1 url with
           | Except.ok r => Except.ok r
           | Except.error _ => tierAttempt_v2 env.tier2 url) with
    | Except.ok r => Except.ok r
    | Except.error _ => Except.ok (mockAnalyzeProduct url)

/-! ### Projection helpers for stating concrete results -/

/-- The verdict of a fulfilled analysis, if any. -/
def verdictOfE (e : Except Unit AnalysisResult) : Option Verdict :=
  match e with
  | Except.ok r => some r.verdict
  | Except.error _ => none

/-- The trust score of a fulfilled analysis, if any. -/
def scoreOfE (e : Except Unit AnalysisResult) : Option Json :=
  match e with
  | Except.ok r => some r.trust_score
  | Except.error _ => none

/-! ### Predicates and concrete environments used in the statements -/

/-- A non-empty JSON array all of whose elements are strings. -/
def nonEmptyStrArr (j : Json) : Prop :=
  ∃ xs, j = Json.arr xs ∧ xs ≠ [] ∧ ∀ x ∈ xs, ∃ s, x = Json.str s

/-- The §3 output invariants of the spec: integer score in `[0,100]`,
non-empty reasons, non-empty advice, non-empty breakdown slots, at most four
sources. -/
def goodResult (r : AnalysisResult) : Prop :=
  (∃ n : ℤ, r.trust_score = Json.num (n : ℚ) ∧ 0 ≤ n ∧ n ≤ 100) ∧
  nonEmptyStrArr r.reasons ∧
  (∃ s, r.advice = Json.str s ∧ s ≠ "") ∧
  nonEmptyStrArr r.reviews ∧
  nonEmptyStrArr r.sentiment ∧
  nonEmptyStrArr r.price ∧
  nonEmptyStrArr r.seller ∧
  nonEmptyStrArr r.description ∧
  r.sources.length ≤ 4

/-- A string with no backtick characters (so fence stripping ignores it). -/
def fenceSafe (s : String) : Prop := ∀ c ∈ s.toList, c ≠ backtick

/-- Prose, for the round-trip property: no backticks and no braces, the
characters that steer fence stripping and object slicing. -/
def proseSafe (s : String) : Prop :=
  ∀ c ∈ s.toList, c ≠ backtick ∧ c ≠ lbrace ∧ c ≠ rbrace

/-- A parsed record whose `verdict` field is absent, a string, or falsy —
exactly the records on which `formatResult`'s `toLowerCase` cannot throw. -/
def verdictFieldOk (result : Json) : Prop :=
  match fieldOf result "verdict" with
  | none => True
  | some (Json.str _) => True
  | some v => jsTruthy v = false

/-- Environment with no credential configured (missing `API_KEY`). -/
def envNoKey : Env :=
  { envAccess := Except.ok none
    clientOk := true
    tier1 := Except.error ()
    tier2 := Except.error () }

/-- Environment with a live key whose tier 1 answers with an out-of-range
trust score. -/
def envScore150 : Env :=
  { envAccess := Except.ok (some "k")
    clientOk := true
    tier1 := Except.ok { text := some "\x7b\"trust_score\": 150\x7d", grounding := none }
    tier2 := Except.error () }

/-- Environment with a whitespace-only key and a successful tier 1: v1 treats
the key as blank (`trim()`), v2 does not. -/
def envBlankKey : Env :=
  { envAccess := Except.ok (some " ")
    clientOk := true
    tier1 := Except.ok { text := some "\x7b\"verdict\": \"safe\"\x7d", grounding := none }
    tier2 := Except.error () }

/-! ## Lemmas about the cleaning pipeline -/

theorem isPrefixOf_append_self (p r : List Char) : p.isPrefixOf (p ++ r) = true := by
  induction p with
  | nil => simp [List.isPrefixOf]
  | cons a as ih => simp [List.isPrefixOf_cons₂, ih]

theorem isPrefixOf_false_of_head_ne (p : List Char) (hp : p.head? = some backtick)
    (c : Char) (cs : List Char) (hc : c ≠ backtick) :
    p.isPrefixOf (c :: cs) = false := by
  cases p with
  | nil => simp at hp
  | cons a as =>
    obtain rfl : a = backtick := by simpa using hp
    simp [List.isPrefixOf_cons₂]
    intro h
    exact absurd h.symm hc

theorem stripFences_nil : stripFences [] = [] := by
  rw [stripFences]

theorem stripFences_cons_of_ne (c : Char) (cs : List Char) (h : c ≠ backtick) :
    stripFences (c :: cs) = c :: stripFences cs := by
  rw [stripFences]
  rw [isPrefixOf_false_of_head_ne fenceJsonPat rfl c cs h,
      isPrefixOf_false_of_head_ne fencePat rfl c cs h]
  simp

theorem stripFences_append_of_no_bt (pre r : List Char) (h : ∀ a ∈ pre, a ≠ backtick) :
    stripFences (pre ++ r) = pre ++ stripFences r := by
  induction pre with
  | nil => simp
  | cons a as ih =>
    have ha : a ≠ backtick := h a (by simp)
    rw [List.cons_append, stripFences_cons_of_ne a (as ++ r) ha,
        ih (fun x hx => h x (by simp [hx]))]
    rfl

theorem stripFences_of_no_bt (l : List Char) (h : ∀ a ∈ l, a ≠ backtick) :
    stripFences l = l := by
  have := stripFences_append_of_no_bt l [] h
  simpa [stripFences_nil] using this

theorem mem_stripFences (l : List Char) (c : Char) (h : c ∈ stripFences l) : c ∈ l := by
  induction l using stripFences.induct with
  | case1 => rw [stripFences_nil] at h; simp at h
  | case2 c' cs hpre ih =>
    rw [stripFences, if_pos hpre] at h
    exact List.mem_cons_of_mem _ (List.drop_subset _ _ (ih h))
  | case3 c' cs hpre hpre2 ih =>
    rw [stripFences, if_neg hpre, if_pos hpre2] at h
    exact List.mem_cons_of_mem _ (List.drop_subset _ _ (ih h))
  | case4 c' cs hpre hpre2 ih =>
    rw [stripFences, if_neg hpre, if_neg hpre2] at h
    rcases List.mem_cons.mp h with h | h
    · exact h ▸ List.mem_cons_self _ _
    · exact List.mem_cons_of_mem _ (ih h)

theorem stripFences_fenceJson (r : List Char) :
    stripFences (fenceJsonPat ++ r) = stripFences r := by
  have h0 : fenceJsonPat ++ r = backtick :: ("``json".toList ++ r) := rfl
  rw [h0, stripFences]
  have h1 : fenceJsonPat.isPrefixOf (backtick :: ("``json".toList ++ r)) = true := by
    have h2 := isPrefixOf_append_self fenceJsonPat r
    rwa [h0] at h2
  rw [h1]
  simp only [if_true]
  rfl

theorem stripFences_fence (r : List Char) (h : ("json".toList).isPrefixOf r = false) :
    stripFences (fencePat ++ r) = stripFences r := by
  have h0 : fencePat ++ r = backtick :: ("``".toList ++ r) := rfl
  rw [h0, stripFences]
  have h1 : fenceJsonPat.isPrefixOf (backtick :: ("``".toList ++ r)) = false := by
    show (backtick :: "``json".toList).isPrefixOf (backtick :: ("``".toList ++ r)) = false
    simp only [List.isPrefixOf_cons₂, beq_self_eq_true, Bool.true_and]
    show (backtick :: "`json".toList).isPrefixOf (backtick :: ("`".toList ++ r)) = false
    simp only [List.isPrefixOf_cons₂, beq_self_eq_true, Bool.true_and]
    show (backtick :: "json".toList).isPrefixOf (backtick :: r) = false
    simp only [List.isPrefixOf_cons₂, beq_self_eq_true, Bool.true_and]
    exact h
  have h2 : fencePat.isPrefixOf (backtick :: ("``".toList ++ r)) = true := by
    have h3 := isPrefixOf_append_self fencePat r
    rwa [h0] at h3
  rw [h1, h2]
  simp only [Bool.false_eq_true, if_false, if_true]
  rfl

theorem mem_trimChars (l : List Char) (c : Char) (h : c ∈ trimChars l) : c ∈ l := by
  unfold trimChars at h
  rw [List.mem_reverse] at h
  have h1 := (List.dropWhile_sublist (l := (l.dropWhile isSpaceJS).reverse)
    (p := isSpaceJS)).subset h
  rw [List.mem_reverse] at h1
  exact (List.dropWhile_sublist (p := isSpaceJS)).subset h1

theorem dropWhile_append_head (p : Char → Bool) (A M : List Char) (m : Char)
    (hhead : M.head? = some m) (hm : p m = false) :
    (A ++ M).dropWhile p = A.dropWhile p ++ M := by
  cases M with
  | nil => simp at hhead
  | cons x xs =>
    obtain rfl : x = m := by simpa using hhead
    rw [List.dropWhile_append]
    split
    next h =>
      rw [List.isEmpty_iff] at h
      rw [h, List.dropWhile_cons, hm]
      simp
    next h => rfl

theorem trimChars_append_decomp (A M B : List Char) (mh ml : Char)
    (hhead : M.head? = some mh) (hmh : isSpaceJS mh = false)
    (hlast : M.getLast? = some ml) (hml : isSpaceJS ml = false) :
    ∃ A' B', trimChars (A ++ M ++ B) = A' ++ M ++ B' ∧
      (∀ c ∈ A', c ∈ A) ∧ (∀ c ∈ B', c ∈ B) := by
  have hMB : (M ++ B).head? = some mh := by
    cases M with
    | nil => simp at hhead
    | cons x xs => simpa using hhead
  have step1 : (A ++ (M ++ B)).dropWhile isSpaceJS =
      A.dropWhile isSpaceJS ++ (M ++ B) :=
    dropWhile_append_head isSpaceJS A (M ++ B) mh hMB hmh
  have hrev : M.reverse.head? = some ml := by
    rw [List.head?_reverse]; exact hlast
  have hrevA : (M.reverse ++ (A.dropWhile isSpaceJS).reverse).head? = some ml := by
    cases hM : M.reverse with
    | nil => rw [hM] at hrev; simp at hrev
    | cons x xs =>
      have hx : x = ml := by rw [hM] at hrev; simpa using hrev
      simp [hx]
  have step2 : (A.dropWhile isSpaceJS ++ (M ++ B)).reverse.dropWhile isSpaceJS =
      B.reverse.dropWhile isSpaceJS ++ (M.reverse ++ (A.dropWhile isSpaceJS).reverse) := by
    have e : (A.dropWhile isSpaceJS ++ (M ++ B)).reverse =
        B.reverse ++ (M.reverse ++ (A.dropWhile isSpaceJS).reverse) := by
      simp [List.reverse_append]
    rw [e]
    exact dropWhile_append_head isSpaceJS B.reverse
      (M.reverse ++ (A.dropWhile isSpaceJS).reverse) ml hrevA hml
  refine ⟨A.dropWhile isSpaceJS, (B.reverse.dropWhile isSpaceJS).reverse, ?_, ?_, ?_⟩
  · unfold trimChars
    rw [List.append_assoc, step1, step2]
    simp [List.reverse_append, List.append_assoc]
  · exact fun c hc => (List.dropWhile_sublist (p := isSpaceJS)).subset hc
  · intro c hc
    rw [List.mem_reverse] at hc
    have h1 := (List.dropWhile_sublist (l := B.reverse) (p := isSpaceJS)).subset hc
    rwa [List.mem_reverse] at h1

theorem idxOfPat_single_none (ch : Char) (l : List Char) (h : ∀ a ∈ l, a ≠ ch) :
    idxOfPat [ch] l = none := by
  induction l with
  | nil => simp [idxOfPat]
  | cons a as ih =>
    have ha : a ≠ ch := h a (by simp)
    rw [idxOfPat]
    have hp : ([ch]).isPrefixOf (a :: as) = false := by
      simp [List.isPrefixOf_cons₂, List.isPrefixOf]
      exact fun hc => absurd hc.symm ha
    rw [hp]
    simp [ih (fun x hx => h x (by simp [hx]))]

theorem idxOfPat_single_append (ch : Char) (A R : List Char) (h : ∀ a ∈ A, a ≠ ch) :
    idxOfPat [ch] (A ++ ch :: R) = some A.length := by
  induction A with
  | nil =>
    rw [List.nil_append, idxOfPat]
    have hp : ([ch]).isPrefixOf (ch :: R) = true := by
      simp [List.isPrefixOf_cons₂, List.isPrefixOf]
    rw [hp]
    simp
  | cons a as ih =>
    have ha : a ≠ ch := h a (by simp)
    rw [List.cons_append, idxOfPat]
    have hp : ([ch]).isPrefixOf (a :: (as ++ ch :: R)) = false := by
      simp [List.isPrefixOf_cons₂, List.isPrefixOf]
      exact fun hc => absurd hc.symm ha
    rw [hp]
    simp [ih (fun x hx => h x (by simp [hx]))]

theorem sliceBraces_of_no_lbrace (l : List Char) (h : lbrace ∉ l) :
    sliceBraces l = l := by
  unfold sliceBraces idxOfChar
  rw [idxOfPat_single_none lbrace l (fun a ha => fun he => h (he ▸ ha))]

theorem sliceBraces_eq_of_idx (l : List Char) (s e : Nat)
    (h1 : idxOfChar lbrace l = some s) (h2 : lastIdxOfChar rbrace l = some e) :
    sliceBraces l = substringJS l s (e + 1) := by
  unfold sliceBraces
  rw [h1, h2]

theorem sliceBraces_extract (A M B : List Char)
    (hA : ∀ a ∈ A, a ≠ lbrace) (hB : ∀ b ∈ B, b ≠ rbrace)
    (hhead : M.head? = some lbrace) (hlast : M.getLast? = some rbrace) :
    sliceBraces (A ++ M ++ B) = M := by
  obtain ⟨M', hM⟩ : ∃ M', M = lbrace :: M' := by
    cases M with
    | nil => simp at hhead
    | cons x xs => exact ⟨xs, by simpa using hhead⟩
  have hidx : idxOfChar lbrace (A ++ M ++ B) = some A.length := by
    unfold idxOfChar
    rw [hM, List.append_assoc, List.cons_append]
    exact idxOfPat_single_append lbrace A (M' ++ B) hA
  have hM1 : 1 ≤ M.length := by rw [hM]; simp
  obtain ⟨Mr, hMr⟩ : ∃ Mr, M.reverse = rbrace :: Mr := by
    have hMrev : M.reverse.head? = some rbrace := by
      rw [List.head?_reverse]; exact hlast
    cases hMv : M.reverse with
    | nil => rw [hMv] at hMrev; simp at hMrev
    | cons x xs => rw [hMv] at hMrev; exact ⟨xs, by simpa using hMrev⟩
  have hlast' : lastIdxOfChar rbrace (A ++ M ++ B) = some (A.length + M.length - 1) := by
    unfold lastIdxOfChar
    have hrev : (A ++ M ++ B).reverse = B.reverse ++ rbrace :: (Mr ++ A.reverse) := by
      rw [List.reverse_append, List.reverse_append, hMr]
      simp [List.append_assoc]
    rw [hrev, idxOfPat_single_append rbrace B.reverse (Mr ++ A.reverse)
      (fun b hb => hB b (List.mem_reverse.mp hb))]
    simp only [Option.map_some']
    congr 1
    have hlenM : M.length = Mr.length + 1 := by
      have h5 := congrArg List.length hMr
      simpa using h5
    simp only [List.length_append, List.length_reverse]
    omega
  rw [sliceBraces_eq_of_idx _ _ _ hidx hlast']
  have he : A.length + M.length - 1 + 1 = A.length + M.length := by omega
  rw [he]
  unfold substringJS
  have hmin : min A.length (A.length + M.length) = A.length := by omega
  have hmax : max A.length (A.length + M.length) = A.length + M.length := by omega
  rw [hmin, hmax]
  have hdrop : (A ++ M ++ B).drop A.length = M ++ B := by
    rw [List.append_assoc]
    exact List.drop_left A (M ++ B)
  rw [hdrop]
  have hsub : A.length + M.length - A.length = M.length := by omega
  rw [hsub]
  exact List.take_left M B

theorem mem_cleanedText_v1 (raw : String) (c : Char) (h : c ∈ cleanedText_v1 raw) :
    c ∈ raw.toList :=
  mem_stripFences _ _ (mem_trimChars _ _ h)

theorem parseVal_obj_mem (fuel : Nat) (l : List Char) (fs : List (String × Json))
    (rest : List Char) (h : parseVal fuel l = some (Json.obj fs, rest)) :
    lbrace ∈ l := by
  cases fuel with
  | zero => simp [parseVal] at h
  | succ f =>
    rw [parseVal] at h
    cases hl : skipJsonWs l with
    | nil => rw [hl] at h; simp at h
    | cons c cs =>
      rw [hl] at h
      have hmem : c ∈ l := by
        have hc : c ∈ skipJsonWs l := by rw [hl]; exact List.mem_cons_self _ _
        exact (List.dropWhile_sublist (p := isJsonWs)).subset hc
      repeat' split at h
      all_goals simp_all

theorem jsonParse_obj_mem (l : List Char) (fs : List (String × Json))
    (h : jsonParse l = some (Json.obj fs)) : lbrace ∈ l := by
  unfold jsonParse at h
  cases hp : parseVal (3 * l.length + 3) l with
  | none => rw [hp] at h; simp at h
  | some pr =>
    obtain ⟨j, rest⟩ := pr
    rw [hp] at h
    dsimp only at h
    by_cases hr : skipJsonWs rest = []
    · rw [if_pos hr] at h
      obtain rfl : j = Json.obj fs := by simpa using h
      exact parseVal_obj_mem _ _ _ _ hp
    · rw [if_neg hr] at h
      exact Option.noConfusion h

/-- Claim C6, amended: on input text containing no brace characters the slicing
step is a no-op, so the normalizer fails exactly when the input is missing,
empty, or — after fence stripping and trimming — not valid JSON.  In
particular a braceless input never yields a JSON *object*; but braceless text
that is itself valid JSON of another kind (a number, string, boolean, null or
array) is returned as a record rather than raising `ParseError`, contrary to
the claim as stated. -/
theorem parseResponse_v1_no_braces (raw : String)
    (h1 : lbrace ∉ raw.toList) (h2 : rbrace ∉ raw.toList) :
    parseResponse_v1 (some raw) =
      (if raw = "" then Except.error () else
        match jsonParse (cleanedText_v1 raw) with
        | some j => Except.ok j
        | none => Except.error ()) ∧
    ∀ fs, parseResponse_v1 (some raw) ≠ Except.ok (Json.obj fs) := by
  have hclean : lbrace ∉ cleanedText_v1 raw :=
    fun hmem => h1 (mem_cleanedText_v1 raw lbrace hmem)
  have hslice : sliceBraces (cleanedText_v1 raw) = cleanedText_v1 raw :=
    sliceBraces_of_no_lbrace _ hclean
  constructor
  · unfold parseResponse_v1
    dsimp only
    rw [hslice]
  · intro fs hok
    unfold parseResponse_v1 at hok
    dsimp only at hok
    by_cases hre : raw = ""
    · rw [if_pos hre] at hok
      exact Except.noConfusion hok
    · rw [if_neg hre, hslice] at hok
      cases hj : jsonParse (cleanedText_v1 raw) with
      | none => rw [hj] at hok; exact Except.noConfusion hok
      | some j =>
        rw [hj] at hok
        obtain rfl : j = Json.obj fs := by simpa using hok
        exact hclean (jsonParse_obj_mem _ _ hj)

/-- Claim C6, counterexample: the input `"42"` contains no brace pair, yet the
normalizer returns a record (the JSON number 42) instead of raising
`ParseError`, refuting the claim as stated. -/
theorem C6_counterexample :
    ("42".toList.contains lbrace) = false ∧ ("42".toList.contains rbrace) = false ∧
    parseResponse_v1 (some "42") = Except.ok (Json.num 42) := by
  refine ⟨rfl, rfl, ?_⟩
  have hc : cleanedText_v1 "42" = "42".toList := by
    unfold cleanedText_v1
    rw [stripFences_of_no_bt _ (by decide)]
    rfl
  have hs : sliceBraces (cleanedText_v1 "42") = cleanedText_v1 "42" := by
    rw [hc]; exact sliceBraces_of_no_lbrace _ (by decide)
  unfold parseResponse_v1
  dsimp only
  rw [if_neg (by decide : ¬ ("42" : String) = ""), hs, hc]
  rfl

/-- Claim C6, witness: the amended characterization applied to the braceless
input `"null"`. -/
theorem C6_witness :
    ("null".toList.contains lbrace) = false ∧
    parseResponse_v1 (some "null") = Except.ok Json.null := by
  have hthm := parseResponse_v1_no_braces "null" (by decide) (by decide)
  refine ⟨rfl, ?_⟩
  rw [hthm.1]
  have hc : cleanedText_v1 "null" = "null".toList := by
    unfold cleanedText_v1
    rw [stripFences_of_no_bt _ (by decide)]
    rfl
  rw [if_neg (by decide : ¬ ("null" : String) = ""), hc]
  rfl

/-- Claim C3, counterexample: the spec's keyword group for Fake includes
"danger", but the code checks only "fake" and "scam": the label "danger"
classifies as Suspicious, not Fake. -/
theorem C3_counterexample :
    classifyVerdict "danger" = Verdict.Suspicious ∧
    Verdict.Suspicious ≠ Verdict.Fake :=
  ⟨rfl, by decide⟩

/-- Claim C3, amended: the classifier evaluates two keyword groups in fixed
order on the lower-cased label — "genuine"/"safe" give Genuine, else
"fake"/"scam" give Fake ("danger" is *not* checked, unlike the claim), else
Suspicious; a missing label is defaulted to the empty string and classifies
as Suspicious. -/
theorem classifyVerdict_spec (s : String) :
    (containsStr (lowerStr s) "genuine" = true ∨ containsStr (lowerStr s) "safe" = true →
      classifyVerdict s = Verdict.Genuine) ∧
    (containsStr (lowerStr s) "genuine" = false → containsStr (lowerStr s) "safe" = false →
      containsStr (lowerStr s) "fake" = true ∨ containsStr (lowerStr s) "scam" = true →
      classifyVerdict s = Verdict.Fake) ∧
    (containsStr (lowerStr s) "genuine" = false → containsStr (lowerStr s) "safe" = false →
      containsStr (lowerStr s) "fake" = false → containsStr (lowerStr s) "scam" = false →
      classifyVerdict s = Verdict.Suspicious) ∧
    (∀ url srcs, (formatResult_v1 (Json.obj []) url srcs).map (fun r => r.verdict) =
      some Verdict.Suspicious) := by
  refine ⟨?_, ?_, ?_, fun url srcs => rfl⟩
  · intro h
    unfold classifyVerdict
    dsimp only
    rcases h with h | h <;> rw [h] <;> simp
  · intro hg hs h
    unfold classifyVerdict
    dsimp only
    rw [hg, hs]
    rcases h with h | h <;> rw [h] <;> simp
  · intro hg hs hf hsc
    unfold classifyVerdict
    dsimp only
    rw [hg, hs, hf, hsc]
    simp

/-- Claim C3, witness: the label "unverified" contains none of the keywords and
classifies as Suspicious. -/
theorem C3_witness : classifyVerdict "unverified" = Verdict.Suspicious :=
  (classifyVerdict_spec "unverified").2.2.1 rfl rfl rfl rfl

/-- Claim C10: because the genuine/safe group is checked first, every label
whose lower-cased form contains "safe" — including "unsafe" and
"unsafe scam", which also contain Fake keywords — classifies as Genuine. -/
theorem classify_safe_priority (s : String)
    (h : containsStr (lowerStr s) "safe" = true) :
    classifyVerdict s = Verdict.Genuine ∧
    classifyVerdict "unsafe" = Verdict.Genuine ∧
    classifyVerdict "unsafe scam" = Verdict.Genuine := by
  refine ⟨?_, rfl, rfl⟩
  unfold classifyVerdict
  dsimp only
  rw [h]
  simp

/-- Claim C10, witness: the theorem applied to the label "unsafe". -/
theorem C10_witness :
    containsStr (lowerStr "unsafe") "safe" = true ∧
    classifyVerdict "unsafe" = Verdict.Genuine :=
  ⟨rfl, (classify_safe_priority "unsafe" rfl).1⟩

/-- Claim C7: a URL that matches both a trusted-retailer substring and a scam
keyword takes the trusted branch of the estimator — Genuine with score 92 —
because the trusted check is evaluated first. -/
theorem mock_trusted_priority (url : String)
    (ht : trustedDomains.any (fun d => containsStr (lowerStr url) d) = true)
    (hs : scamKeywords.any (fun k => containsStr (lowerStr url) k) = true) :
    (mockAnalyzeProduct url).verdict = Verdict.Genuine ∧
    (mockAnalyzeProduct url).trust_score = Json.num 92 := by
  simp only [mockAnalyzeProduct]
  rw [ht]
  simp

/-- Claim C7, witness: a URL containing both "amazon" and "free". -/
theorem C7_witness :
    trustedDomains.any
      (fun d => containsStr (lowerStr "https://amazon.example/free-deal") d) = true ∧
    scamKeywords.any
      (fun k => containsStr (lowerStr "https://amazon.example/free-deal") k) = true ∧
    (mockAnalyzeProduct "https://amazon.example/free-deal").verdict = Verdict.Genuine ∧
    (mockAnalyzeProduct "https://amazon.example/free-deal").trust_score = Json.num 92 := by
  refine ⟨rfl, rfl, ?_, ?_⟩
  · exact (mock_trusted_priority "https://amazon.example/free-deal" rfl rfl).1
  · exact (mock_trusted_priority "https://amazon.example/free-deal" rfl rfl).2

/-- Claim C8: with the key absent, the placeholder, or blank (v1 also trims
whitespace), `analyzeProduct` routes directly to the estimator; for the
amazon deal URL the result is Genuine with score 92 and no sources. -/
theorem analyze_no_key (env : Env)
    (h : computedApiKey env = "" ∨ computedApiKey env = "PLACEHOLDER_API_KEY" ∨
      trimStr (computedApiKey env) = "") :
    analyzeProduct_v1 env "https://www.amazon.com/deal-xyz" =
      Except.ok (mockAnalyzeProduct "https://www.amazon.com/deal-xyz") ∧
    (mockAnalyzeProduct "https://www.amazon.com/deal-xyz").verdict = Verdict.Genuine ∧
    (mockAnalyzeProduct "https://www.amazon.com/deal-xyz").trust_score = Json.num 92 ∧
    (mockAnalyzeProduct "https://www.amazon.com/deal-xyz").sources = [] := by
  refine ⟨?_, rfl, rfl, rfl⟩
  unfold analyzeProduct_v1 analyzeBody_v1
  rw [if_pos h]

/-- Claim C8, witness: the theorem applied to the environment without a key. -/
theorem C8_witness :
    computedApiKey envNoKey = "" ∧
    analyzeProduct_v1 envNoKey "https://www.amazon.com/deal-xyz" =
      Except.ok (mockAnalyzeProduct "https://www.amazon.com/deal-xyz") ∧
    (mockAnalyzeProduct "https://www.amazon.com/deal-xyz").verdict = Verdict.Genuine :=
  ⟨rfl, (analyze_no_key envNoKey (Or.inl rfl)).1, (analyze_no_key envNoKey (Or.inl rfl)).2.1⟩

/-- Claim C1: the defensive resolver (`analysisService.ts`) is total: whatever
the environment does — key access throwing, the client constructor throwing,
either tier throwing or returning arbitrary text — the returned promise
fulfills with an `AnalysisResult`; every failure path ends in the master
catch, which resolves with the mock engine's result. -/
theorem analyzeProduct_v1_total (env : Env) (url : String) :
    ∃ r, analyzeProduct_v1 env url = Except.ok r := by
  unfold analyzeProduct_v1
  cases analyzeBody_v1 env url with
  | ok r => exact ⟨r, rfl⟩
  | error e => exact ⟨mockAnalyzeProduct url, rfl⟩

/-! ## The formatting step (claims C5 and C2) -/

theorem formatResultWith_fields (d1 d2 : String) (j : Json) (url : String)
    (srcs : List String) (r : AnalysisResult)
    (h : formatResultWith d1 d2 j url srcs = some r) :
    r.sources = srcs.take 4 ∧ r.url = url := by
  unfold formatResultWith at h
  split at h
  all_goals try exact Option.noConfusion h
  all_goals split at h
  all_goals try exact Option.noConfusion h
  all_goals injection h with h'
  all_goals subst h'
  all_goals exact ⟨rfl, rfl⟩

theorem tierAttempt_v1_ok (t : Except Unit ProviderResponse) (url : String)
    (r : AnalysisResult) (h : tierAttempt_v1 t url = Except.ok r) :
    r.sources.length ≤ 4 ∧ r.url = url := by
  unfold tierAttempt_v1 at h
  split at h
  · exact Except.noConfusion h
  · split at h
    · exact Except.noConfusion h
    · split at h
      · exact Except.noConfusion h
      · injection h with h'
        subst h'
        rename_i heq
        obtain ⟨hsrc, hurl⟩ := formatResultWith_fields _ _ _ _ _ _ heq
        refine ⟨?_, hurl⟩
        rw [hsrc, List.length_take]
        omega

theorem mock_sources_nil (url : String) : (mockAnalyzeProduct url).sources = [] := rfl

theorem mock_url_echo (url : String) : (mockAnalyzeProduct url).url = url := rfl

theorem analyzeBody_v1_ok (env : Env) (url : String) (r : AnalysisResult)
    (h : analyzeBody_v1 env url = Except.ok r) :
    r.sources.length ≤ 4 ∧ r.url = url := by
  unfold analyzeBody_v1 at h
  dsimp only at h
  repeat' split at h
  all_goals try exact Except.noConfusion h
  all_goals
    injection h with h'
    subst h'
    first
      | exact ⟨by rw [mock_sources_nil]; simp, mock_url_echo url⟩
      | (rename_i heq; exact tierAttempt_v1_ok _ _ _ heq)

theorem nonEmptyStrArr_one (a : String) : nonEmptyStrArr (Json.arr [Json.str a]) :=
  ⟨[Json.str a], rfl, by simp, by simp⟩

theorem nonEmptyStrArr_three (a b c : String) :
    nonEmptyStrArr (Json.arr [Json.str a, Json.str b, Json.str c]) := by
  refine ⟨[Json.str a, Json.str b, Json.str c], rfl, by simp, ?_⟩
  intro x hx
  simp only [List.mem_cons, List.not_mem_nil, or_false] at hx
  rcases hx with h | h | h
  · exact ⟨a, h⟩
  · exact ⟨b, h⟩
  · exact ⟨c, h⟩

theorem goodResult_mk (q : ℚ) (v : Verdict) (a b c adv r1 r2 r3 r4 r5 url : String)
    (hq : ∃ n : ℤ, q = (n : ℚ) ∧ 0 ≤ n ∧ n ≤ 100) (hadv : adv ≠ "") :
    goodResult
      { trust_score := Json.num q, verdict := v,
        reasons := Json.arr [Json.str a, Json.str b, Json.str c],
        advice := Json.str adv, url := url, sources := [],
        reviews := Json.arr [Json.str r1], sentiment := Json.arr [Json.str r2],
        price := Json.arr [Json.str r3], seller := Json.arr [Json.str r4],
        description := Json.arr [Json.str r5] } := by
  obtain ⟨n, h1, h2, h3⟩ := hq
  exact ⟨⟨n, congrArg Json.num h1, h2, h3⟩, nonEmptyStrArr_three a b c, ⟨adv, rfl, hadv⟩,
    nonEmptyStrArr_one r1, nonEmptyStrArr_one r2, nonEmptyStrArr_one r3,
    nonEmptyStrArr_one r4, nonEmptyStrArr_one r5, by simp⟩

theorem goodResult_mock (url : String) : goodResult (mockAnalyzeProduct url) := by
  unfold mockAnalyzeProduct
  dsimp only
  generalize trustedDomains.any (fun d => containsStr (lowerStr url) d) = b1
  generalize scamKeywords.any (fun k => containsStr (lowerStr url) k) = b2
  cases b1 <;> cases b2
  · exact goodResult_mk _ _ _ _ _ _ _ _ _ _ _ _
      ⟨65, by norm_num, by norm_num, by norm_num⟩ (by decide)
  · exact goodResult_mk _ _ _ _ _ _ _ _ _ _ _ _
      ⟨25, by norm_num, by norm_num, by norm_num⟩ (by decide)
  · exact goodResult_mk _ _ _ _ _ _ _ _ _ _ _ _
      ⟨92, by norm_num, by norm_num, by norm_num⟩ (by decide)
  · exact goodResult_mk _ _ _ _ _ _ _ _ _ _ _ _
      ⟨92, by norm_num, by norm_num, by norm_num⟩ (by decide)

/-- Claim C2, amended: every result of `analyzeProduct` echoes the url and has
at most four sources (and, by construction of the enum type, a verdict among
Genuine/Suspicious/Fake); results produced by the estimator tier additionally
satisfy all §3 invariants (integer score in `[0,100]`, non-empty reasons,
advice, and breakdown slots).  Live-tier results copy `trust_score`,
`reasons` and the breakdown slots verbatim from the provider record, so the
score-range and non-emptiness invariants hold only when the provider's values
satisfy them — the claim as stated is false (see the counterexample). -/
theorem analyzeProduct_v1_invariants :
    (∀ env url r, analyzeProduct_v1 env url = Except.ok r →
      r.sources.length ≤ 4 ∧ r.url = url) ∧
    (∀ url, goodResult (mockAnalyzeProduct url)) := by
  constructor
  · intro env url r h
    unfold analyzeProduct_v1 at h
    cases hb : analyzeBody_v1 env url with
    | ok r' =>
      rw [hb] at h
      dsimp only at h
      injection h with h'
      subst h'
      exact analyzeBody_v1_ok env url _ hb
    | error e =>
      rw [hb] at h
      dsimp only at h
      injection h with h'
      subst h'
      rw [mock_sources_nil]
      exact ⟨by simp, mock_url_echo url⟩
  · exact goodResult_mock

/-- Claim C2, counterexample: with a live key and a tier-1 response whose record
carries `trust_score: 150`, `analyzeProduct` returns trust score 150, outside
`[0, 100]` — the formatter does not clamp the provider's value. -/
theorem C2_counterexample :
    scoreOfE (analyzeProduct_v1 envScore150 "u") = some (Json.num 150) ∧
    (100 : ℚ) < 150 := by
  refine ⟨?_, by norm_num⟩
  have hclean : cleanedText_v1 "\x7b\"trust_score\": 150\x7d" =
      "\x7b\"trust_score\": 150\x7d".toList := by
    unfold cleanedText_v1
    rw [stripFences_of_no_bt _ (by decide)]
    rfl
  have hparse : parseResponse_v1 (some "\x7b\"trust_score\": 150\x7d") =
      Except.ok (Json.obj [("trust_score", Json.num 150)]) := by
    unfold parseResponse_v1
    dsimp only
    rw [if_neg (by decide : ¬ ("\x7b\"trust_score\": 150\x7d" : String) = ""), hclean]
    rfl
  have htier : tierAttempt_v1 envScore150.tier1 "u" =
      Except.ok (AnalysisResult.mk (Json.num 150) Verdict.Suspicious
        (Json.arr [Json.str "Analysis based on domain patterns."])
        (Json.str "Proceed with caution.") "u" []
        (Json.arr [Json.str "Data unavailable"]) (Json.arr [Json.str "Data unavailable"])
        (Json.arr [Json.str "Data unavailable"]) (Json.arr [Json.str "Data unavailable"])
        (Json.arr [Json.str "Data unavailable"])) := by
    unfold envScore150 tierAttempt_v1
    dsimp only
    rw [hparse]
    rfl
  unfold analyzeProduct_v1 analyzeBody_v1
  dsimp only
  rw [if_neg (by decide :
    ¬(computedApiKey envScore150 = "" ∨ computedApiKey envScore150 = "PLACEHOLDER_API_KEY" ∨
      trimStr (computedApiKey envScore150) = ""))]
  rw [if_neg (by decide : ¬(envScore150.clientOk = false))]
  rw [htier]
  rfl

/-- Claim C2, witness: the amended theorem applied to the keyless environment,
whose result is the estimator's and satisfies the full invariants. -/
theorem C2_witness :
    (mockAnalyzeProduct "x").sources.length ≤ 4 ∧
    goodResult (mockAnalyzeProduct "x") := by
  constructor
  · refine (analyzeProduct_v1_invariants.1 envNoKey "x" (mockAnalyzeProduct "x") ?_).1
    unfold analyzeProduct_v1 analyzeBody_v1
    dsimp only
    rw [if_pos (Or.inl (by decide : computedApiKey envNoKey = ""))]
  · exact analyzeProduct_v1_invariants.2 "x"

/-- Claim C5, amended: in the formatting step, string-valued fields behave as
the claim says — `advice` takes the parsed value when present and non-empty,
else the fixed default — and `trust_score` takes the parsed number (a parsed
0 and an absent field both give 0).  But the array-valued fields (`reasons`
and the five breakdown slots) use JS `||`, under which a *present but empty*
array is truthy and is kept verbatim rather than replaced by the placeholder,
contrary to the claim (see the counterexample).  The step also is not total:
it succeeds for every record whose `verdict` field is absent, a string, or
falsy, and throws (returns `none`) on the JSON null record or a truthy
non-string `verdict`. -/
theorem formatResult_defaulting :
    (∀ fs url srcs, verdictFieldOk (Json.obj fs) →
      (formatResult_v1 (Json.obj fs) url srcs).isSome = true) ∧
    (∀ fs url srcs r, formatResult_v1 (Json.obj fs) url srcs = some r →
      (∀ xs, lookupField fs "reasons" = some (Json.arr xs) → r.reasons = Json.arr xs) ∧
      (lookupField fs "reasons" = none →
        r.reasons = Json.arr [Json.str "Analysis based on domain patterns."]) ∧
      (∀ a, lookupField fs "advice" = some (Json.str a) →
        r.advice = if a = "" then Json.str "Proceed with caution." else Json.str a) ∧
      (lookupField fs "advice" = none → r.advice = Json.str "Proceed with caution.") ∧
      (∀ q, lookupField fs "trust_score" = some (Json.num q) →
        r.trust_score = if q = 0 then Json.num 0 else Json.num q) ∧
      (lookupField fs "trust_score" = none → r.trust_score = Json.num 0) ∧
      (lookupField fs "breakdown" = none →
        r.reviews = Json.arr [Json.str "Data unavailable"] ∧
        r.sentiment = Json.arr [Json.str "Data unavailable"] ∧
        r.price = Json.arr [Json.str "Data unavailable"] ∧
        r.seller = Json.arr [Json.str "Data unavailable"] ∧
        r.description = Json.arr [Json.str "Data unavailable"]) ∧
      (∀ bfs xs, lookupField fs "breakdown" = some (Json.obj bfs) →
        lookupField bfs "reviews" = some (Json.arr xs) → r.reviews = Json.arr xs)) := by
  constructor
  · intro fs url srcs hok
    unfold verdictFieldOk at hok
    unfold formatResult_v1 formatResultWith
    simp only [fieldOf] at hok ⊢
    cases hv : lookupField fs "verdict" with
    | none => simp [jsOr]
    | some v =>
      rw [hv] at hok
      cases v with
      | null => simp [jsOr, jsTruthy]
      | bool b =>
        cases b
        · simp [jsOr, jsTruthy]
        · exact absurd (hok : jsTruthy (Json.bool true) = false) (by simp [jsTruthy])
      | num q =>
        have hok' : jsTruthy (Json.num q) = false := hok
        simp [jsOr, hok']
      | str s =>
        simp only [jsOr, jsTruthy]
        by_cases hs' : (s != "") = true
        · rw [if_pos hs']
          simp
        · rw [if_neg hs']
          simp
      | arr xs => exact absurd (hok : jsTruthy (Json.arr xs) = false) (by simp [jsTruthy])
      | obj ofs => exact absurd (hok : jsTruthy (Json.obj ofs) = false) (by simp [jsTruthy])
  · intro fs url srcs r h
    unfold formatResult_v1 formatResultWith at h
    dsimp only at h
    split at h
    all_goals try exact Option.noConfusion h
    injection h with h'
    subst h'
    refine ⟨?_, ?_, ?_, ?_, ?_, ?_, ?_, ?_⟩
    · intro xs hx
      show jsOr (fieldOf (Json.obj fs) "reasons") _ = _
      simp only [fieldOf]
      rw [hx]
      simp [jsOr, jsTruthy]
    · intro hx
      show jsOr (fieldOf (Json.obj fs) "reasons") _ = _
      simp only [fieldOf]
      rw [hx]
      simp [jsOr]
    · intro a ha
      show jsOr (fieldOf (Json.obj fs) "advice") _ = _
      simp only [fieldOf]
      rw [ha]
      by_cases ha' : a = "" <;> simp [jsOr, jsTruthy, ha']
    · intro hx
      show jsOr (fieldOf (Json.obj fs) "advice") _ = _
      simp only [fieldOf]
      rw [hx]
      simp [jsOr]
    · intro q hq
      show jsOr (fieldOf (Json.obj fs) "trust_score") _ = _
      simp only [fieldOf]
      rw [hq]
      by_cases hq' : q = 0 <;> simp [jsOr, jsTruthy, hq']
    · intro hx
      show jsOr (fieldOf (Json.obj fs) "trust_score") _ = _
      simp only [fieldOf]
      rw [hx]
      simp [jsOr]
    · intro hx
      refine ⟨?_, ?_, ?_, ?_, ?_⟩ <;>
        · show jsOr (match fieldOf (Json.obj fs) "breakdown" with
            | some b => fieldOf b _
            | none => none) _ = _
          simp only [fieldOf]
          rw [hx]
          simp [jsOr]
    · intro bfs xs hb hr
      show jsOr (match fieldOf (Json.obj fs) "breakdown" with
        | some b => fieldOf b "reviews"
        | none => none) _ = _
      simp only [fieldOf]
      rw [hb]
      simp only [fieldOf]
      rw [hr]
      simp [jsOr, jsTruthy]

/-- Claim C5, counterexample: a parsed record whose `reasons` field is a
*present but empty* array: JS `||` keeps the empty array (arrays are truthy),
so the formatted result's reasons are `[]`, not the default placeholder the
claim requires. -/
theorem C5_counterexample :
    (formatResult_v1 (Json.obj [("reasons", Json.arr [])]) "u" []).map
      (fun r => r.reasons) = some (Json.arr []) ∧
    Json.arr [] ≠ Json.arr [Json.str "Analysis based on domain patterns."] :=
  ⟨rfl, by simp⟩

/-- Claim C5, witness: the amended theorem applied to a record with an empty
`advice` string (defaulted, matching the claim) and no `verdict` field
(formatting succeeds). -/
theorem C5_witness :
    (formatResult_v1 (Json.obj [("advice", Json.str "")]) "u" []).isSome = true :=
  formatResult_defaulting.1 [("advice", Json.str "")] "u" [] trivial

/-! ## The two resolver copies (claim C4) -/

/-- Claim C4, counterexample: a whitespace-only API key with a successful
tier 1.  v1 trims the key (`apiKey.trim() === ""`) and routes to the mock —
verdict Suspicious for an unknown url — while v2 (no `trim()`) proceeds to
the provider and formats its answer — verdict Genuine.  The two resolver
copies are not behaviorally equivalent. -/
theorem C4_counterexample :
    verdictOfE (analyzeProduct_v1 envBlankKey "x") = some Verdict.Suspicious ∧
    verdictOfE (analyzeProduct_v2 envBlankKey "x") = some Verdict.Genuine ∧
    analyzeProduct_v1 envBlankKey "x" ≠ analyzeProduct_v2 envBlankKey "x" := by
  refine ⟨rfl, rfl, ?_⟩
  intro h
  have h2 := congrArg verdictOfE h
  rw [show verdictOfE (analyzeProduct_v1 envBlankKey "x") = some Verdict.Suspicious from rfl,
      show verdictOfE (analyzeProduct_v2 envBlankKey "x") = some Verdict.Genuine from rfl] at h2
  exact absurd h2 (by decide)

/-- Claim C4, amended: the two resolver copies are *not* behaviorally
equivalent in general: a whitespace-only key routes v1 to the mock but lets
v2 call the provider (see the counterexample), and a client-constructor
failure is caught by v1 but escapes v2's `try`, rejecting its promise.  They
do agree on the degradation regimes: whenever the key is missing or the
placeholder both return the mock result, and whenever the client constructs
but both provider tiers throw both return the mock result. -/
theorem resolver_partial_equiv :
    (∀ env url, computedApiKey env = "" ∨ computedApiKey env = "PLACEHOLDER_API_KEY" →
      analyzeProduct_v1 env url = analyzeProduct_v2 env url) ∧
    (∀ env url, env.clientOk = true → env.tier1 = Except.error () →
      env.tier2 = Except.error () →
      analyzeProduct_v1 env url = analyzeProduct_v2 env url) ∧
    (∀ env url, ¬(computedApiKey env = "" ∨ computedApiKey env = "PLACEHOLDER_API_KEY") →
      env.clientOk = false → analyzeProduct_v2 env url = Except.error ()) := by
  refine ⟨?_, ?_, ?_⟩
  · intro env url h
    have h1 : computedApiKey env = "" ∨ computedApiKey env = "PLACEHOLDER_API_KEY" ∨
        trimStr (computedApiKey env) = "" := by
      rcases h with h | h
      · exact Or.inl h
      · exact Or.inr (Or.inl h)
    unfold analyzeProduct_v1 analyzeBody_v1 analyzeProduct_v2
    dsimp only
    rw [if_pos h1, if_pos h]
  · intro env url hc h1 h2
    have hv1 : analyzeProduct_v1 env url = Except.ok (mockAnalyzeProduct url) := by
      unfold analyzeProduct_v1 analyzeBody_v1
      dsimp only
      by_cases hk : computedApiKey env = "" ∨ computedApiKey env = "PLACEHOLDER_API_KEY" ∨
          trimStr (computedApiKey env) = ""
      · rw [if_pos hk]
      · rw [if_neg hk, if_neg (by rw [hc]; exact fun he => Bool.noConfusion he), h1, h2]
        rfl
    have hv2 : analyzeProduct_v2 env url = Except.ok (mockAnalyzeProduct url) := by
      unfold analyzeProduct_v2
      dsimp only
      by_cases hk : computedApiKey env = "" ∨ computedApiKey env = "PLACEHOLDER_API_KEY"
      · rw [if_pos hk]
      · rw [if_neg hk, if_neg (by rw [hc]; exact fun he => Bool.noConfusion he), h1, h2]
        rfl
    rw [hv1, hv2]
  · intro env url hk hc
    unfold analyzeProduct_v2
    dsimp only
    rw [if_neg hk, if_pos hc]

/-- Claim C4, witness: the partial-equivalence theorem applied to the keyless
environment: both resolver copies return the same (mock) result. -/
theorem C4_witness :
    computedApiKey envNoKey = "" ∧
    analyzeProduct_v1 envNoKey "u" = analyzeProduct_v2 envNoKey "u" :=
  ⟨rfl, resolver_partial_equiv.1 envNoKey "u" (Or.inl rfl)⟩

/-! ## Normalizer round-trip (claim C9) -/

theorem toList_appendStr (s t : String) : (s ++ t).toList = s.toList ++ t.toList := by
  simp [String.toList]

/-- Claim C9: normalizer round-trip.  For any well-formed JSON object text
(backtick-free, first character `\x7b`, last character `\x7d`), wrapping it in
code-fence markers — with or without the `json` language tag — and
surrounding it with leading/trailing prose (brace- and backtick-free text)
normalizes to the same record as the unwrapped object text. -/
theorem parseResponse_roundtrip (objTxt p1 p2 : String)
    (fs : List (String × Json)) (tag : Bool)
    (hparse : jsonParseStr objTxt = some (Json.obj fs))
    (hhead : objTxt.toList.head? = some lbrace)
    (hlast : objTxt.toList.getLast? = some rbrace)
    (hobj : fenceSafe objTxt) (hp1 : proseSafe p1) (hp2 : proseSafe p2) :
    parseResponse_v1 (some (p1 ++ (if tag then "```json\n" else "```\n") ++ objTxt
      ++ "\n```\n" ++ p2)) = Except.ok (Json.obj fs) ∧
    parseResponse_v1 (some objTxt) = Except.ok (Json.obj fs) := by
  have hO_ne : objTxt.toList ≠ [] := by
    intro he
    rw [he] at hhead
    simp at hhead
  have hlb_not_ws : isSpaceJS lbrace = false := by decide
  have hrb_not_ws : isSpaceJS rbrace = false := by decide
  have htrimO : trimChars objTxt.toList = objTxt.toList := by
    obtain ⟨A', B', heq, hA', hB'⟩ := trimChars_append_decomp [] objTxt.toList []
      lbrace rbrace hhead hlb_not_ws hlast hrb_not_ws
    have hA : A' = [] := by
      cases A' with
      | nil => rfl
      | cons x xs => exact absurd (hA' x (by simp)) (by simp)
    have hB : B' = [] := by
      cases B' with
      | nil => rfl
      | cons x xs => exact absurd (hB' x (by simp)) (by simp)
    rw [hA, hB] at heq
    simpa using heq
  have hsliceO : sliceBraces objTxt.toList = objTxt.toList := by
    have h := sliceBraces_extract [] objTxt.toList [] (by simp) (by simp) hhead hlast
    simpa using h
  have hconj2 : parseResponse_v1 (some objTxt) = Except.ok (Json.obj fs) := by
    unfold parseResponse_v1
    dsimp only
    rw [if_neg (show ¬ objTxt = "" from fun he => hO_ne (by rw [he]; rfl))]
    unfold cleanedText_v1
    rw [stripFences_of_no_bt _ hobj, htrimO, hsliceO,
        show jsonParse objTxt.toList = some (Json.obj fs) from hparse]
  refine ⟨?_, hconj2⟩
  have hjs : ∀ X : List Char, ("json".toList).isPrefixOf ('\n' :: X) = false := by
    intro X
    show (['j', 's', 'o', 'n'] : List Char).isPrefixOf ('\n' :: X) = false
    rw [List.isPrefixOf_cons₂]
    simp [show ('j' == '\n') = false from rfl]
  have hB5 : ∀ X : List Char,
      "\n```\n".toList ++ X = '\n' :: (fencePat ++ ('\n' :: X)) := fun _ => rfl
  have hOpenTag : ∀ X : List Char,
      "```json\n".toList ++ X = fenceJsonPat ++ ('\n' :: X) := fun _ => rfl
  have hOpenNoTag : ∀ X : List Char,
      "```\n".toList ++ X = fencePat ++ ('\n' :: X) := fun _ => rfl
  have hrest : stripFences ('\n' :: (objTxt.toList ++ ("\n```\n".toList ++ p2.toList)))
      = '\n' :: (objTxt.toList ++ ('\n' :: '\n' :: p2.toList)) := by
    rw [stripFences_cons_of_ne _ _ (by decide),
        stripFences_append_of_no_bt _ _ hobj,
        hB5 p2.toList,
        stripFences_cons_of_ne _ _ (by decide),
        stripFences_fence _ (hjs p2.toList),
        stripFences_cons_of_ne _ _ (by decide),
        stripFences_of_no_bt _ (fun a ha => (hp2 a ha).1)]
  have hstrip : stripFences ((if tag then "```json\n" else "```\n").toList
      ++ (objTxt.toList ++ ("\n```\n".toList ++ p2.toList)))
      = '\n' :: (objTxt.toList ++ ('\n' :: '\n' :: p2.toList)) := by
    cases tag
    · rw [show ((if false then "```json\n" else "```\n") : String) = "```\n" from rfl,
          hOpenNoTag, stripFences_fence _ (hjs _)]
      exact hrest
    · rw [show ((if true then "```json\n" else "```\n") : String) = "```json\n" from rfl,
          hOpenTag, stripFences_fenceJson]
      exact hrest
  have hWtoList : (p1 ++ (if tag then "```json\n" else "```\n") ++ objTxt
      ++ "\n```\n" ++ p2).toList
      = p1.toList ++ ((if tag then "```json\n" else "```\n").toList
          ++ (objTxt.toList ++ ("\n```\n".toList ++ p2.toList))) := by
    simp [toList_appendStr]
  have hW_ne : (p1 ++ (if tag then "```json\n" else "```\n") ++ objTxt
      ++ "\n```\n" ++ p2) ≠ "" := by
    intro he
    have h0 := congrArg String.toList he
    rw [hWtoList] at h0
    obtain ⟨-, h1⟩ := List.append_eq_nil.mp h0
    obtain ⟨-, h2⟩ := List.append_eq_nil.mp h1
    obtain ⟨h3, -⟩ := List.append_eq_nil.mp h2
    exact hO_ne h3
  have hsliceW : sliceBraces (trimChars ((p1.toList ++ ['\n']) ++ objTxt.toList
      ++ ('\n' :: '\n' :: p2.toList))) = objTxt.toList := by
    obtain ⟨A', B', heq, hA', hB'⟩ := trimChars_append_decomp (p1.toList ++ ['\n'])
      objTxt.toList ('\n' :: '\n' :: p2.toList) lbrace rbrace
      hhead hlb_not_ws hlast hrb_not_ws
    rw [heq]
    apply sliceBraces_extract
    · intro a ha
      rcases List.mem_append.mp (hA' a ha) with h | h
      · exact (hp1 a h).2.1
      · simp at h
        subst h
        decide
    · intro b hb
      rcases List.mem_cons.mp (hB' b hb) with h | h
      · subst h
        decide
      · rcases List.mem_cons.mp h with h2 | h2
        · subst h2
          decide
        · exact (hp2 b h2).2.2
    · exact hhead
    · exact hlast
  unfold parseResponse_v1
  dsimp only
  rw [if_neg hW_ne]
  unfold cleanedText_v1
  rw [hWtoList,
      stripFences_append_of_no_bt _ _ (fun a ha => (hp1 a ha).1),
      hstrip,
      show p1.toList ++ ('\n' :: (objTxt.toList ++ ('\n' :: '\n' :: p2.toList)))
        = (p1.toList ++ ['\n']) ++ objTxt.toList ++ ('\n' :: '\n' :: p2.toList) from by simp,
      hsliceW,
      show jsonParse objTxt.toList = some (Json.obj fs) from hparse]

/-- Claim C9, witness: the round-trip theorem applied to the object text
`\x7b"a": 1\x7d` wrapped in a tagged fence between two pieces of prose. -/
theorem C9_witness :
    jsonParseStr "\x7b\"a\": 1\x7d" = some (Json.obj [("a", Json.num 1)]) ∧
    parseResponse_v1 (some ("Here is the answer: " ++ "```json\n" ++ "\x7b\"a\": 1\x7d"
      ++ "\n```\n" ++ "Hope this helps.")) = Except.ok (Json.obj [("a", Json.num 1)]) ∧
    parseResponse_v1 (some "\x7b\"a\": 1\x7d") = Except.ok (Json.obj [("a", Json.num 1)]) := by
  have h := parseResponse_roundtrip "\x7b\"a\": 1\x7d" "Here is the answer: "
    "Hope this helps." [("a", Json.num 1)] true rfl rfl rfl
    (by unfold fenceSafe; decide) (by unfold proseSafe; decide) (by unfold proseSafe; decide)
  exact ⟨rfl, h.1, h.2⟩
